import Mathlib

/-!
Shallow embedding of the document-similarity-analyzer core
(src/core: normalize, tokenize, tf, idf, vectorize, similarity, matrix,
pipeline, sentence_pipeline), with numeric values idealized as real
numbers. HashMap values are modelled as association lists with distinct
keys; iteration-order effects on floating-point rounding disappear under
real-number semantics.
-/

namespace DocSim

noncomputable section

/-! ## Text processing (src/core/normalize.rs, src/core/tokenize.rs) -/

/-- Rust `char::is_ascii_punctuation`: the four ASCII punctuation ranges. -/
def isAsciiPunct (c : Char) : Bool :=
  (0x21 ≤ c.toNat && c.toNat ≤ 0x2f) || (0x3a ≤ c.toNat && c.toNat ≤ 0x40) ||
  (0x5b ≤ c.toNat && c.toNat ≤ 0x60) || (0x7b ≤ c.toNat && c.toNat ≤ 0x7e)

/-- Rust `char::to_ascii_lowercase`. -/
def toAsciiLower (c : Char) : Char :=
  if 0x41 ≤ c.toNat && c.toNat ≤ 0x5a then Char.ofNat (c.toNat + 0x20) else c

/-- Helper for whitespace splitting: `acc` is the current (reversed) word. -/
def splitWsAux : List Char → List Char → List (List Char)
  | [], acc => if acc.isEmpty then [] else [acc.reverse]
  | c :: cs, acc =>
    if c.isWhitespace then
      if acc.isEmpty then splitWsAux cs [] else acc.reverse :: splitWsAux cs []
    else splitWsAux cs (c :: acc)

/-- Rust `str::split_whitespace`: the maximal non-whitespace runs, in order. -/
def splitWs (s : List Char) : List (List Char) := splitWsAux s []

/-- `normalize_text` (src/core/normalize.rs): replace ASCII punctuation by a
space, ASCII-lowercase, then collapse whitespace runs to single spaces. -/
def normalize_text (text : String) : String :=
  let mapped := text.data.map (fun c => if isAsciiPunct c then ' ' else toAsciiLower c)
  String.intercalate " " ((splitWs mapped).map String.mk)

/-- `tokenize` (src/core/tokenize.rs): whitespace-delimited non-empty tokens. -/
def tokenize (text : String) : List String :=
  ((splitWs text.data).map String.mk).filter (fun s => !s.isEmpty)

/-! ## Sparse maps

Rust `HashMap<String, f32>` is modelled as an association list with distinct
keys; `mget` is `HashMap::get`. -/

/-- Lookup in an association-list map (`HashMap::get`). -/
def mget (m : List (String × ℝ)) (k : String) : Option ℝ :=
  (m.find? (fun p => p.1 = k)).map Prod.snd

/-- The key set of a map (`HashMap::keys`). -/
def tfKeys (m : List (String × ℝ)) : List String := m.map Prod.fst

/-! ## TF and IDF (src/core/tf.rs, src/core/idf.rs) -/

/-- `compute_tf`: relative frequency of each distinct token; empty input
yields the empty map. -/
def compute_tf (tokens : List String) : List (String × ℝ) :=
  if tokens.isEmpty then []
  else tokens.dedup.map (fun t => (t, (tokens.count t : ℝ) / (tokens.length : ℝ)))

/-- Document frequency: in how many corpus members the term occurs. -/
def doc_freq (tfs : List (List (String × ℝ))) (t : String) : ℕ :=
  tfs.countP (fun tf => decide (t ∈ tfKeys tf))

/-- `compute_idf`: smoothed IDF `ln((N+1)/(df+1)) + 1` for every term occurring
in any member; empty corpus yields the empty map. -/
def compute_idf (tfs : List (List (String × ℝ))) : List (String × ℝ) :=
  if tfs.isEmpty then []
  else
    ((tfs.flatMap tfKeys).dedup).map (fun t =>
      (t, Real.log (((tfs.length : ℝ) + 1) / ((doc_freq tfs t : ℝ) + 1)) + 1))

/-! ## Vectorization (src/core/vectorize.rs) -/

/-- `vectorize` (dense): position i of the vector is tf(term_i) * idf(term_i)
over the given vocabulary order, 0.0 for absent terms. -/
def vectorize (tf idf : List (String × ℝ)) (vocabulary : List String) : List ℝ :=
  vocabulary.map (fun term => ((mget tf term).getD 0) * ((mget idf term).getD 0))

/-- Modelled from the spec: `compute_tfidf_vector` (sparse vectorizer) is
re-exported by src/core/mod.rs but its body is not under src/. Spec §4.5:
"given a TF map and an IDF map, produce a term→(tf×idf) map restricted to the
TF map's own keys". -/
def compute_tfidf_vector (tf idf : List (String × ℝ)) : List (String × ℝ) :=
  tf.map (fun p => (p.1, p.2 * ((mget idf p.1).getD 0)))

/-! ## Cosine similarity (src/core/similarity.rs) -/

/-- `cosine_similarity` (dense): 0.0 on length mismatch or empty input or zero
magnitude, else dot(A,B) / (|A| * |B|). -/
def cosine_similarity (vec_a vec_b : List ℝ) : ℝ :=
  if vec_a.length ≠ vec_b.length ∨ vec_a = [] then 0
  else
    let dot := ((vec_a.zip vec_b).map (fun p => p.1 * p.2)).sum
    let magA := Real.sqrt ((vec_a.map (fun x => x * x)).sum)
    let magB := Real.sqrt ((vec_b.map (fun x => x * x)).sum)
    if magA = 0 ∨ magB = 0 then 0 else dot / (magA * magB)

/-- Modelled from the spec: `compute_cosine_similarity` (sparse form) is
re-exported by src/core/mod.rs but its body is not under src/. Spec §4.6:
dot product over the key intersection (absent keys contribute 0), magnitudes
over each side's own full value set, zero magnitude yields 0.0. -/
def compute_cosine_similarity (va vb : List (String × ℝ)) : ℝ :=
  let dot := (va.map (fun p => p.2 * ((mget vb p.1).getD 0))).sum
  let magA := Real.sqrt ((va.map (fun p => p.2 * p.2)).sum)
  let magB := Real.sqrt ((vb.map (fun p => p.2 * p.2)).sum)
  if magA = 0 ∨ magB = 0 then 0 else dot / (magA * magB)

/-! ## Similarity matrix (src/core/matrix.rs) -/

/-- `compute_similarity_matrix`: NxN matrix, diagonal 1.0 by construction,
off-diagonal cosine similarity (upper and lower triangles each computed). -/
def compute_similarity_matrix (vectors : List (List ℝ)) : List (List ℝ) :=
  let n := vectors.length
  if n = 0 then []
  else
    (List.range n).map (fun i =>
      (List.range n).map (fun j =>
        if i = j then 1
        else if i < j then cosine_similarity (vectors.getD i []) (vectors.getD j [])
        else cosine_similarity (vectors.getD i []) (vectors.getD j [])))

/-! ## Document pipeline (src/core/pipeline.rs, src/models/document.rs) -/

/-- `SimilarityMatrix` (src/models/document.rs). -/
structure SimilarityMatrix where
  matrix : List (List ℝ)
  index : List String
deriving DecidableEq

/-- `analyze_documents`: normalize, tokenize, TF per document, global IDF,
sorted vocabulary, dense vectors, similarity matrix, labels `doc{i}`. -/
def analyze_documents (documents : List String) : SimilarityMatrix :=
  if documents.isEmpty then ⟨[], []⟩
  else
    let labels := (List.range documents.length).map (fun i => "doc" ++ toString i)
    let normalized := documents.map normalize_text
    let tokenized := normalized.map tokenize
    let tfs := tokenized.map compute_tf
    let idf := compute_idf tfs
    let vocabulary := (idf.map Prod.fst).mergeSort (fun a b => decide (a ≤ b))
    let vectors := tfs.map (fun tf => vectorize tf idf vocabulary)
    ⟨compute_similarity_matrix vectors, labels⟩

/-! ## Sentence pipeline (src/core/sentence_pipeline.rs,
src/models/sentence_analysis.rs) -/

/-- `SentenceDocument` (src/core/sentence_pipeline.rs). -/
structure SentenceDocument where
  filename : String
  sentences : List String
deriving DecidableEq

instance : Inhabited SentenceDocument := ⟨⟨"", []⟩⟩

/-- `SentenceVector` (src/core/sentence_pipeline.rs). -/
structure SentenceVector where
  doc_index : ℕ
  sentence_index : ℕ
  vector : List (String × ℝ)
deriving DecidableEq

instance : Inhabited SentenceVector := ⟨⟨0, 0, []⟩⟩

/-- `SentenceMatch` (src/models/sentence_analysis.rs). -/
structure SentenceMatch where
  source_doc : String
  source_sentence_index : ℕ
  source_sentence : String
  target_doc : String
  target_sentence_index : ℕ
  target_sentence : String
  similarity : ℝ
deriving DecidableEq

/-- `GlobalSimilarity` (src/models/sentence_analysis.rs). -/
structure GlobalSimilarity where
  doc_a : String
  doc_b : String
  score : ℝ
deriving DecidableEq

/-- Step 1 of `analyze_sentence_similarity`: flatten every document's
sentences into (document index, sentence index, text) triples. -/
def all_sentences (documents : List SentenceDocument) : List (ℕ × ℕ × String) :=
  documents.enum.flatMap (fun p =>
    p.2.sentences.enum.map (fun q => (p.1, q.1, q.2)))

/-- Steps 2-3 applied to one sentence: normalize, tokenize, TF. -/
def sentence_tf (text : String) : List (String × ℝ) :=
  compute_tf (tokenize (normalize_text text))

/-- Step 4: the corpus-global IDF over all sentences of all documents. -/
def global_idf (documents : List SentenceDocument) : List (String × ℝ) :=
  compute_idf ((all_sentences documents).map (fun t => sentence_tf t.2.2))

/-- Steps 1-5: the sparse TF-IDF vector of every flattened sentence. -/
def sentence_vectors (documents : List SentenceDocument) : List SentenceVector :=
  (all_sentences documents).map (fun t =>
    ⟨t.1, t.2.1, compute_tfidf_vector (sentence_tf t.2.2) (global_idf documents)⟩)

/-- The body of the pair filter in `compute_sentence_matches`: `none` both for
same-document pairs and for pairs below the threshold. -/
def match_of_pair (documents : List SentenceDocument) (threshold : ℝ)
    (vec_a vec_b : SentenceVector) : Option SentenceMatch :=
  if vec_a.doc_index = vec_b.doc_index then none
  else
    let similarity := compute_cosine_similarity vec_a.vector vec_b.vector
    if threshold ≤ similarity then
      some ⟨(documents.getD vec_a.doc_index default).filename,
            vec_a.sentence_index,
            (documents.getD vec_a.doc_index default).sentences.getD vec_a.sentence_index "",
            (documents.getD vec_b.doc_index default).filename,
            vec_b.sentence_index,
            (documents.getD vec_b.doc_index default).sentences.getD vec_b.sentence_index "",
            similarity⟩
    else none

/-- `compute_sentence_matches`: all cross-document pairs (i < j in the
flattened list) at or above the threshold, sorted by similarity descending. -/
def compute_sentence_matches (vectors : List SentenceVector)
    (documents : List SentenceDocument) (threshold : ℝ) : List SentenceMatch :=
  let ms := vectors.enum.flatMap (fun p =>
    (vectors.drop (p.1 + 1)).filterMap (fun vec_b =>
      match_of_pair documents threshold p.2 vec_b))
  ms.mergeSort (fun a b => decide (b.similarity ≤ a.similarity))

/-- `compute_global_similarities`: the per-document-pair mean of all
cross-document sentence-pair similarities, skipping pairs where either
document contributed no sentence vector; sorted by score descending.
Grouping the vectors by `doc_index` via the source's order-preserving
fold-into-HashMap yields, for key d, exactly the sublist
`vectors.filter (doc_index = d)`. -/
def compute_global_similarities (vectors : List SentenceVector)
    (documents : List SentenceDocument) : List GlobalSimilarity :=
  let doc_pairs := (List.range documents.length).flatMap (fun a =>
    ((List.range documents.length).drop (a + 1)).map (fun b => (a, b)))
  let global_sims := doc_pairs.filterMap (fun p =>
    let vecs_a := vectors.filter (fun v => decide (v.doc_index = p.1))
    let vecs_b := vectors.filter (fun v => decide (v.doc_index = p.2))
    if vecs_a.isEmpty ∨ vecs_b.isEmpty then none
    else
      let similarities := vecs_a.flatMap (fun va =>
        vecs_b.map (fun vb => compute_cosine_similarity va.vector vb.vector))
      some ⟨(documents.getD p.1 default).filename,
            (documents.getD p.2 default).filename,
            similarities.sum / (similarities.length : ℝ)⟩)
  global_sims.mergeSort (fun a b => decide (b.score ≤ a.score))

/-- `analyze_sentence_similarity`: flatten, vectorize each sentence against
the corpus-global IDF, then matches and global similarities. -/
def analyze_sentence_similarity (documents : List SentenceDocument)
    (threshold : ℝ) : List SentenceMatch × List GlobalSimilarity :=
  if (all_sentences documents).isEmpty then ([], [])
  else
    (compute_sentence_matches (sentence_vectors documents) documents threshold,
     compute_global_similarities (sentence_vectors documents) documents)

/-! ## Derived views used to state and prove the specification claims -/

/-- Recursive view of the flattening step: the sentences of the documents from
position `k` on, tagged with document index (starting at `k`) and sentence
index. -/
def flatten_from (k : ℕ) : List SentenceDocument → List (ℕ × ℕ × String)
  | [] => []
  | doc :: rest =>
    doc.sentences.enum.map (fun q => (k, q.1, q.2)) ++ flatten_from (k + 1) rest

/-- Recursive view of the upper-triangle pair traversal
`l.enum.flatMap (fun (i, a) => (l.drop (i+1)).filterMap (f a))`. -/
def pairs_filter {α β : Type} (f : α → α → Option β) : List α → List β
  | [] => []
  | a :: t => t.filterMap (f a) ++ pairs_filter f t

/-- The sparse TF-IDF vector of sentence `s` of document `d`, as computed by
steps 2-5 of the sentence pipeline. -/
def sent_vector (documents : List SentenceDocument) (d s : ℕ) : List (String × ℝ) :=
  compute_tfidf_vector
    (sentence_tf ((documents.getD d default).sentences.getD s ""))
    (global_idf documents)

/-- The sparse cosine similarity of two pipeline sentence vectors. -/
def pair_similarity (documents : List SentenceDocument) (da sa db sb : ℕ) : ℝ :=
  compute_cosine_similarity (sent_vector documents da sa) (sent_vector documents db sb)

/-- The match record the pipeline reports for sentence `sa` of document `da`
against sentence `sb` of document `db`. -/
def mk_match (documents : List SentenceDocument) (da sa db sb : ℕ) : SentenceMatch :=
  ⟨(documents.getD da default).filename, sa,
   (documents.getD da default).sentences.getD sa "",
   (documents.getD db default).filename, sb,
   (documents.getD db default).sentences.getD sb "",
   pair_similarity documents da sa db sb⟩

/-- The identity of a reported match: source document label and sentence
position against target document label and sentence position. -/
def match_key (m : SentenceMatch) : String × ℕ × String × ℕ :=
  (m.source_doc, m.source_sentence_index, m.target_doc, m.target_sentence_index)

/-- The arithmetic mean of the sparse cosine similarities over the full
combinatorial product of the sentences of documents `a` and `b`. -/
def doc_pair_mean (documents : List SentenceDocument) (a b : ℕ) : ℝ :=
  let sims := ((documents.getD a default).sentences.enum).flatMap (fun p =>
    ((documents.getD b default).sentences.enum).map (fun q =>
      pair_similarity documents a p.1 b q.1))
  sims.sum / (sims.length : ℝ)

/-- The global-similarity record reported for the document pair `(a, b)`. -/
def mk_global (documents : List SentenceDocument) (a b : ℕ) : GlobalSimilarity :=
  ⟨(documents.getD a default).filename,
   (documents.getD b default).filename,
   doc_pair_mean documents a b⟩

/-! ## Panic-checked variants (for the totality claim)

Rust indexing panics are modelled by `Option`: every `xs[i]` of the source
becomes `xs[i]?`, and `none` propagates.  The `partial_cmp(..).unwrap()` in
the two sort calls can fail only on an f32 NaN, which has no counterpart in
the real-number idealization (every similarity is a well-defined real), so
the comparator is modelled by the total order on `ℝ`. -/

/-- Fallible map: apply `f` to every element in order, propagating failure
(the `Option`-monad traversal, written recursively). -/
def omap {α β : Type} (f : α → Option β) : List α → Option (List β)
  | [] => some []
  | a :: t =>
    match f a, omap f t with
    | some b, some bs => some (b :: bs)
    | _, _ => none

/-- `compute_similarity_matrix` with checked indexing. -/
def compute_similarity_matrix_checked (vectors : List (List ℝ)) :
    Option (List (List ℝ)) :=
  let n := vectors.length
  if n = 0 then some []
  else
    omap (fun i =>
      omap (fun j =>
        if i = j then some 1
        else
          match vectors[i]?, vectors[j]? with
          | some vi, some vj => some (cosine_similarity vi vj)
          | _, _ => none) (List.range n)) (List.range n)

/-- `analyze_documents` with checked indexing. -/
def analyze_documents_checked (documents : List String) : Option SimilarityMatrix :=
  if documents.isEmpty then some ⟨[], []⟩
  else
    let labels := (List.range documents.length).map (fun i => "doc" ++ toString i)
    let normalized := documents.map normalize_text
    let tokenized := normalized.map tokenize
    let tfs := tokenized.map compute_tf
    let idf := compute_idf tfs
    let vocabulary := (idf.map Prod.fst).mergeSort (fun a b => decide (a ≤ b))
    let vectors := tfs.map (fun tf => vectorize tf idf vocabulary)
    (compute_similarity_matrix_checked vectors).map (fun m => ⟨m, labels⟩)

/-- `match_of_pair` with checked indexing: the outer `Option` is the panic
channel, the inner one the pair filter. -/
def match_of_pair_checked (documents : List SentenceDocument) (threshold : ℝ)
    (vec_a vec_b : SentenceVector) : Option (Option SentenceMatch) :=
  if vec_a.doc_index = vec_b.doc_index then some none
  else
    let similarity := compute_cosine_similarity vec_a.vector vec_b.vector
    if threshold ≤ similarity then
      match documents[vec_a.doc_index]?, documents[vec_b.doc_index]? with
      | some da, some db =>
        match da.sentences[vec_a.sentence_index]?, db.sentences[vec_b.sentence_index]? with
        | some sa, some sb =>
          some (some ⟨da.filename, vec_a.sentence_index, sa,
                      db.filename, vec_b.sentence_index, sb, similarity⟩)
        | _, _ => none
      | _, _ => none
    else some none

/-- `compute_sentence_matches` with checked indexing. -/
def compute_sentence_matches_checked (vectors : List SentenceVector)
    (documents : List SentenceDocument) (threshold : ℝ) :
    Option (List SentenceMatch) :=
  (omap (fun p =>
    (omap (fun vec_b =>
      match_of_pair_checked documents threshold p.2 vec_b) (vectors.drop (p.1 + 1))).map
      (fun os => os.filterMap id)) vectors.enum).map
    (fun blocks => blocks.flatten.mergeSort (fun a b => decide (b.similarity ≤ a.similarity)))

/-- `compute_global_similarities` with checked indexing. -/
def compute_global_similarities_checked (vectors : List SentenceVector)
    (documents : List SentenceDocument) : Option (List GlobalSimilarity) :=
  let doc_pairs := (List.range documents.length).flatMap (fun a =>
    ((List.range documents.length).drop (a + 1)).map (fun b => (a, b)))
  (omap (fun p =>
    let vecs_a := vectors.filter (fun v => decide (v.doc_index = p.1))
    let vecs_b := vectors.filter (fun v => decide (v.doc_index = p.2))
    if vecs_a.isEmpty ∨ vecs_b.isEmpty then some none
    else
      let similarities := vecs_a.flatMap (fun va =>
        vecs_b.map (fun vb => compute_cosine_similarity va.vector vb.vector))
      match documents[p.1]?, documents[p.2]? with
      | some da, some db =>
        some (some ⟨da.filename, db.filename,
                    similarities.sum / (similarities.length : ℝ)⟩)
      | _, _ => none) doc_pairs).map
    (fun os => (os.filterMap id).mergeSort (fun a b => decide (b.score ≤ a.score)))

/-- `analyze_sentence_similarity` with checked indexing. -/
def analyze_sentence_similarity_checked (documents : List SentenceDocument)
    (threshold : ℝ) : Option (List SentenceMatch × List GlobalSimilarity) :=
  if (all_sentences documents).isEmpty then some ([], [])
  else do
    let m ← compute_sentence_matches_checked (sentence_vectors documents) documents threshold
    let g ← compute_global_similarities_checked (sentence_vectors documents) documents
    return (m, g)

end

/-! ## List infrastructure lemmas -/

theorem omap_eq_map {α β : Type} {f : α → Option β} {g : α → β} :
    ∀ {l : List α}, (∀ x ∈ l, f x = some (g x)) → omap f l = some (l.map g) := by
  intro l
  induction l with
  | nil => intro _; rfl
  | cons a t ih =>
    intro h
    have ha : f a = some (g a) := h a (List.mem_cons_self a t)
    have ht : omap f t = some (t.map g) := ih (fun x hx => h x (List.mem_cons_of_mem a hx))
    simp [omap, ha, ht]

theorem mem_iff_getD {α : Type} [Inhabited α] {l : List α} {x : α} :
    x ∈ l ↔ ∃ i, i < l.length ∧ l.getD i default = x := by
  constructor
  · intro hx
    rcases List.mem_iff_get.1 hx with ⟨n, rfl⟩
    exact ⟨n.1, n.2, List.getD_eq_getElem l default n.2⟩
  · rintro ⟨i, hi, rfl⟩
    rw [List.getD_eq_getElem l default hi]
    exact List.getElem_mem hi

theorem mem_enumFrom_iff {α : Type} (d₀ : α) {l : List α} {k : ℕ} {q : ℕ × α} :
    q ∈ List.enumFrom k l ↔ ∃ i, i < l.length ∧ q = (k + i, l.getD i d₀) := by
  constructor
  · intro hq
    rcases List.mem_iff_get.1 hq with ⟨n, rfl⟩
    have hn : n.1 < l.length := by
      have := n.2; simpa [List.enumFrom_length] using this
    refine ⟨n.1, hn, ?_⟩
    have := List.getElem_enumFrom l k n.1 n.2
    rw [List.get_eq_getElem, this, List.getD_eq_getElem l d₀ hn]
  · rintro ⟨i, hi, rfl⟩
    have hlen : i < (List.enumFrom k l).length := by simpa [List.enumFrom_length] using hi
    have := List.getElem_enumFrom l k i hlen
    rw [List.getD_eq_getElem l d₀ hi, ← this]
    exact List.getElem_mem hlen

theorem pairwise_const {α : Type} {p : Prop} (hp : p) :
    ∀ (l : List α), List.Pairwise (fun _ _ => p) l := by
  intro l
  induction l with
  | nil => exact List.Pairwise.nil
  | cons a t ih => exact List.Pairwise.cons (fun _ _ => hp) ih

theorem enumFrom_flatMap_pairs {α β : Type} (f : α → α → Option β) (l : List α) :
    ∀ (t : List α) (k : ℕ), l.drop k = t →
      (List.enumFrom k t).flatMap (fun p => (l.drop (p.1 + 1)).filterMap (f p.2)) =
        pairs_filter f t := by
  intro t
  induction t with
  | nil => intro k _; simp [pairs_filter]
  | cons a t ih =>
    intro k hk
    have hdrop : l.drop (k + 1) = t := by
      have h1 : List.drop 1 (List.drop k l) = List.drop (k + 1) l := List.drop_drop 1 k l
      rw [← h1, hk]
      rfl
    rw [List.enumFrom_cons, List.flatMap_cons, hdrop, ih (k + 1) hdrop]
    rfl

theorem matches_eq_pairs_filter (vectors : List SentenceVector)
    (documents : List SentenceDocument) (threshold : ℝ) :
    compute_sentence_matches vectors documents threshold =
      (pairs_filter (match_of_pair documents threshold) vectors).mergeSort
        (fun a b => decide (b.similarity ≤ a.similarity)) := by
  unfold compute_sentence_matches
  rw [show vectors.enum = List.enumFrom 0 vectors from rfl,
    enumFrom_flatMap_pairs (match_of_pair documents threshold) vectors vectors 0
      (List.drop_zero vectors)]

theorem enumFrom_flatMap_flatten (docs : List SentenceDocument) :
    ∀ (k : ℕ),
      (List.enumFrom k docs).flatMap
          (fun p => p.2.sentences.enum.map (fun q => (p.1, q.1, q.2))) =
        flatten_from k docs := by
  induction docs with
  | nil => intro k; simp [flatten_from]
  | cons doc rest ih =>
    intro k
    rw [List.enumFrom_cons, List.flatMap_cons, ih (k + 1)]
    rfl

theorem all_sentences_eq (docs : List SentenceDocument) :
    all_sentences docs = flatten_from 0 docs := by
  unfold all_sentences
  exact enumFrom_flatMap_flatten docs 0

theorem mem_pairs_filter {α β : Type} [Inhabited α] {f : α → α → Option β}
    {l : List α} {b : β} :
    b ∈ pairs_filter f l ↔
      ∃ i j, i < j ∧ j < l.length ∧ f (l.getD i default) (l.getD j default) = some b := by
  induction l with
  | nil =>
    constructor
    · intro h; simp [pairs_filter] at h
    · rintro ⟨i, j, _, hj, _⟩; simp at hj
  | cons a t ih =>
    constructor
    · intro h
      rcases List.mem_append.1 h with h1 | h2
      · rcases List.mem_filterMap.1 h1 with ⟨x, hx, hfx⟩
        rcases mem_iff_getD.1 hx with ⟨j0, hj0, rfl⟩
        exact ⟨0, j0 + 1, Nat.succ_pos j0, by simpa using Nat.succ_lt_succ hj0, by
          simpa [List.getD_cons_zero, List.getD_cons_succ] using hfx⟩
      · rcases ih.1 h2 with ⟨i, j, hij, hj, hf⟩
        exact ⟨i + 1, j + 1, Nat.succ_lt_succ hij, Nat.succ_lt_succ hj, by
          simpa [List.getD_cons_succ] using hf⟩
    · rintro ⟨i, j, hij, hj, hf⟩
      cases i with
      | zero =>
        cases j with
        | zero => omega
        | succ j0 =>
          apply List.mem_append.2
          left
          apply List.mem_filterMap.2
          refine ⟨t.getD j0 default, ?_, ?_⟩
          · exact mem_iff_getD.2 ⟨j0, by simpa using hj, rfl⟩
          · simpa [List.getD_cons_zero, List.getD_cons_succ] using hf
      | succ i0 =>
        cases j with
        | zero => omega
        | succ j0 =>
          apply List.mem_append.2
          right
          exact ih.2 ⟨i0, j0, by omega, by simpa using hj, by
            simpa [List.getD_cons_succ] using hf⟩

theorem range_flatMap_pairs (n : ℕ) :
    ∀ (t : List ℕ) (k : ℕ), (List.range n).drop k = t →
      t.flatMap (fun a => ((List.range n).drop (a + 1)).map (fun b => (a, b))) =
        pairs_filter (fun a b => some (a, b)) t := by
  intro t
  induction t with
  | nil => intro k _; simp [pairs_filter]
  | cons a t ih =>
    intro k hk
    have hkn : k < n := by
      have : ((List.range n).drop k).length = n - k := by
        simp [List.length_drop]
      rw [hk] at this
      simp at this
      omega
    have ha : a = k := by
      have h2 := List.getElem?_drop (List.range n) k 0
      rw [hk] at h2
      simp only [List.getElem?_cons_zero, Nat.add_zero] at h2
      rw [List.getElem?_range hkn] at h2
      exact Option.some_injective _ h2
    have hdrop : (List.range n).drop (k + 1) = t := by
      have h1 : List.drop 1 (List.drop k (List.range n)) = List.drop (k + 1) (List.range n) :=
        List.drop_drop 1 k (List.range n)
      rw [← h1, hk]
      rfl
    rw [List.flatMap_cons, ha, hdrop, ih (k + 1) hdrop]
    have : t.map (fun b => (k, b)) = t.filterMap (fun b => some (k, b)) := by
      rw [show (fun b => some (k, b)) = some ∘ (fun b => (k, b)) from rfl,
        List.filterMap_eq_map]
    rw [pairs_filter, ← this]

theorem two_mul_length_pairs_filter_aux {α β : Type} (g : α → α → β) (l : List α) :
    2 * (pairs_filter (fun a b => some (g a b)) l).length + l.length =
      l.length * l.length := by
  induction l with
  | nil => simp [pairs_filter]
  | cons a t ih =>
    have hlen : (t.filterMap (fun b => some (g a b))).length = t.length := by
      rw [show (fun b => some (g a b)) = some ∘ (fun b => g a b) from rfl,
        List.filterMap_eq_map]
      simp
    simp only [pairs_filter, List.length_append, hlen, List.length_cons]
    nlinarith [ih]

theorem length_pairs_filter {α β : Type} (g : α → α → β) (l : List α) :
    (pairs_filter (fun a b => some (g a b)) l).length = l.length * (l.length - 1) / 2 := by
  have h := two_mul_length_pairs_filter_aux g l
  have h2 : l.length * (l.length - 1) =
      2 * (pairs_filter (fun a b => some (g a b)) l).length := by
    cases hn : l.length with
    | zero => rw [hn] at h; simpa using h.symm
    | succ m =>
      rw [hn] at h
      simp only [Nat.succ_sub_one]
      nlinarith [h]
  rw [h2, Nat.mul_div_cancel_left _ (by norm_num)]

theorem length_filterMap_all_some {α β : Type} {f : α → Option β} :
    ∀ {l : List α}, (∀ x ∈ l, (f x).isSome) → (l.filterMap f).length = l.length := by
  intro l
  induction l with
  | nil => intro _; rfl
  | cons a t ih =>
    intro h
    have ha := h a (List.mem_cons_self a t)
    rcases Option.isSome_iff_exists.1 ha with ⟨b, hb⟩
    rw [List.filterMap_cons, hb]
    simp only [List.length_cons]
    rw [ih (fun x hx => h x (List.mem_cons_of_mem a hx))]

theorem flatten_from_fst_ge {docs : List SentenceDocument} :
    ∀ {k : ℕ} {x : ℕ × ℕ × String}, x ∈ flatten_from k docs → k ≤ x.1 := by
  induction docs with
  | nil => intro k x hx; simp [flatten_from] at hx
  | cons doc rest ih =>
    intro k x hx
    rcases List.mem_append.1 hx with h1 | h2
    · rcases List.mem_map.1 h1 with ⟨q, _, rfl⟩
      exact le_refl k
    · exact Nat.le_of_succ_le (ih h2)

theorem flatten_from_pairwise (docs : List SentenceDocument) :
    ∀ (k : ℕ), List.Pairwise (fun x y => x.1 ≤ y.1) (flatten_from k docs) := by
  induction docs with
  | nil => intro k; simp [flatten_from]
  | cons doc rest ih =>
    intro k
    rw [flatten_from, List.pairwise_append]
    refine ⟨?_, ih (k + 1), ?_⟩
    · rw [List.pairwise_map]
      exact pairwise_const (le_refl k) _
    · intro a ha b hb
      rcases List.mem_map.1 ha with ⟨q, _, rfl⟩
      exact Nat.le_of_succ_le (flatten_from_fst_ge hb)

theorem mem_flatten_from {docs : List SentenceDocument} :
    ∀ {k : ℕ} {x : ℕ × ℕ × String},
      x ∈ flatten_from k docs ↔
        ∃ d s, d < docs.length ∧ s < (docs.getD d default).sentences.length ∧
          x = (k + d, s, (docs.getD d default).sentences.getD s "") := by
  induction docs with
  | nil =>
    intro k x
    constructor
    · intro hx; simp [flatten_from] at hx
    · rintro ⟨d, s, hd, _, _⟩; simp at hd
  | cons doc rest ih =>
    intro k x
    constructor
    · intro hx
      rcases List.mem_append.1 hx with h1 | h2
      · rcases List.mem_map.1 h1 with ⟨q, hq, rfl⟩
        rcases (mem_enumFrom_iff "").1 (by simpa [List.enum] using hq) with ⟨i, hi, hq2⟩
        refine ⟨0, i, Nat.succ_pos _, by simpa using hi, ?_⟩
        simp only [List.getD_cons_zero, Nat.add_zero]
        rw [hq2]
        simp
      · rcases ih.1 h2 with ⟨d, s, hd, hs, hx2⟩
        refine ⟨d + 1, s, by simp only [List.length_cons]; omega,
          by simpa [List.getD_cons_succ] using hs, ?_⟩
        rw [hx2]
        simp [List.getD_cons_succ]
        omega
    · rintro ⟨d, s, hd, hs, rfl⟩
      cases d with
      | zero =>
        apply List.mem_append.2
        left
        apply List.mem_map.2
        refine ⟨(s, (doc.sentences.getD s "")), ?_, by simp⟩
        simp only [List.getD_cons_zero] at hs
        exact (mem_enumFrom_iff "").2 ⟨s, hs, by simp⟩
      | succ d0 =>
        apply List.mem_append.2
        right
        apply ih.2
        refine ⟨d0, s, by simp only [List.length_cons] at hd; omega,
          by simpa [List.getD_cons_succ] using hs, ?_⟩
        simp [List.getD_cons_succ]
        omega

theorem flatten_filter_block (docs : List SentenceDocument) :
    ∀ (k d : ℕ), d < docs.length →
      (flatten_from k docs).filter (fun t => decide (t.1 = k + d)) =
        (docs.getD d default).sentences.enum.map (fun q => (k + d, q.1, q.2)) := by
  induction docs with
  | nil => intro k d hd; simp at hd
  | cons doc rest ih =>
    intro k d hd
    rw [flatten_from, List.filter_append]
    cases d with
    | zero =>
      have hhead : (doc.sentences.enum.map (fun q => (k, q.1, q.2))).filter
          (fun t => decide (t.1 = k + 0)) =
          doc.sentences.enum.map (fun q => (k, q.1, q.2)) := by
        apply List.filter_eq_self.2
        intro a ha
        rcases List.mem_map.1 ha with ⟨q, _, rfl⟩
        simp
      have htail : (flatten_from (k + 1) rest).filter (fun t => decide (t.1 = k + 0)) = [] := by
        apply List.filter_eq_nil_iff.2
        intro a ha
        have := flatten_from_fst_ge ha
        simp only [decide_eq_true_eq]
        omega
      rw [hhead, htail, List.append_nil]
      simp
    | succ d0 =>
      have hhead : (doc.sentences.enum.map (fun q => (k, q.1, q.2))).filter
          (fun t => decide (t.1 = k + (d0 + 1))) = [] := by
        apply List.filter_eq_nil_iff.2
        intro a ha
        rcases List.mem_map.1 ha with ⟨q, _, rfl⟩
        simp only [decide_eq_true_eq]
        omega
      have harg : k + (d0 + 1) = (k + 1) + d0 := by omega
      rw [hhead, List.nil_append, harg,
        ih (k + 1) d0 (by simp only [List.length_cons] at hd; omega)]
      simp [List.getD_cons_succ]

/-! ## Lemmas about the map model and the TF/IDF computations -/

theorem mget_map_keyfun (l : List String) (f : String → ℝ) (t : String) :
    mget (l.map (fun s => (s, f s))) t = if t ∈ l then some (f t) else none := by
  induction l with
  | nil => simp [mget]
  | cons a l ih =>
    unfold mget at ih ⊢
    rw [List.map_cons, List.find?_cons]
    by_cases hat : a = t
    · subst hat
      simp
    · have hdec : (decide ((a, f a).1 = t)) = false := by simpa using hat
      rw [hdec]
      simp only [Bool.false_eq_true, if_false]
      rw [ih]
      by_cases htl : t ∈ l
      · simp [htl]
      · simp [htl, Ne.symm hat]

theorem tfKeys_map_keyfun (l : List String) (f : String → ℝ) :
    tfKeys (l.map (fun s => (s, f s))) = l := by
  unfold tfKeys
  rw [List.map_map]
  have h : (Prod.fst ∘ fun s : String => (s, f s)) = fun s => s := rfl
  rw [h]
  exact List.map_id' l

theorem tfKeys_compute_tf (tokens : List String) :
    tfKeys (compute_tf tokens) = if tokens.isEmpty then [] else tokens.dedup := by
  unfold compute_tf
  by_cases h : tokens.isEmpty
  · simp [h, tfKeys]
  · simp only [h, if_false]
    exact tfKeys_map_keyfun _ _

theorem tfKeys_compute_idf (tfs : List (List (String × ℝ))) :
    tfKeys (compute_idf tfs) =
      if tfs.isEmpty then [] else (tfs.flatMap tfKeys).dedup := by
  unfold compute_idf
  by_cases h : tfs.isEmpty
  · simp [h, tfKeys]
  · simp only [h, if_false]
    exact tfKeys_map_keyfun _ _

theorem mget_compute_idf (tfs : List (List (String × ℝ))) (t : String)
    (hne : ¬tfs.isEmpty) (ht : t ∈ tfs.flatMap tfKeys) :
    mget (compute_idf tfs) t =
      some (Real.log (((tfs.length : ℝ) + 1) / ((doc_freq tfs t : ℝ) + 1)) + 1) := by
  unfold compute_idf
  rw [if_neg hne, mget_map_keyfun]
  simp [List.mem_dedup, ht]

/-! ## Lemmas about the structure of the sentence vectors -/

theorem sentence_vectors_eq (docs : List SentenceDocument) :
    sentence_vectors docs =
      (flatten_from 0 docs).map (fun t =>
        ⟨t.1, t.2.1, compute_tfidf_vector (sentence_tf t.2.2) (global_idf docs)⟩) := by
  unfold sentence_vectors
  rw [all_sentences_eq]

theorem mem_sentence_vectors {docs : List SentenceDocument} {v : SentenceVector} :
    v ∈ sentence_vectors docs ↔
      ∃ d s, d < docs.length ∧ s < (docs.getD d default).sentences.length ∧
        v = ⟨d, s, sent_vector docs d s⟩ := by
  rw [sentence_vectors_eq]
  constructor
  · intro hv
    rcases List.mem_map.1 hv with ⟨x, hx, rfl⟩
    rcases mem_flatten_from.1 hx with ⟨d, s, hd, hs, rfl⟩
    exact ⟨d, s, hd, hs, by simp [sent_vector]⟩
  · rintro ⟨d, s, hd, hs, rfl⟩
    apply List.mem_map.2
    refine ⟨(d, s, (docs.getD d default).sentences.getD s ""), ?_, by simp [sent_vector]⟩
    exact mem_flatten_from.2 ⟨d, s, hd, hs, by simp⟩

theorem sentence_vectors_pairwise (docs : List SentenceDocument) :
    List.Pairwise (fun u v => u.doc_index ≤ v.doc_index) (sentence_vectors docs) := by
  rw [sentence_vectors_eq]
  rw [List.pairwise_map]
  exact flatten_from_pairwise docs 0

theorem pairwise_getD {α : Type} [Inhabited α] {R : α → α → Prop} {l : List α}
    (hp : List.Pairwise R l) {i j : ℕ} (hij : i < j) (hj : j < l.length) :
    R (l.getD i default) (l.getD j default) := by
  have hi : i < l.length := lt_trans hij hj
  rw [List.getD_eq_getElem l default hi, List.getD_eq_getElem l default hj]
  have := List.pairwise_iff_get.1 hp ⟨i, hi⟩ ⟨j, hj⟩ hij
  simpa using this

theorem sentence_vectors_filter_block (docs : List SentenceDocument) (d : ℕ)
    (hd : d < docs.length) :
    (sentence_vectors docs).filter (fun v => decide (v.doc_index = d)) =
      (docs.getD d default).sentences.enum.map
        (fun q => ⟨d, q.1, sent_vector docs d q.1⟩) := by
  rw [sentence_vectors_eq, List.filter_map]
  have hblock := flatten_filter_block docs 0 d hd
  simp only [Nat.zero_add] at hblock
  have hpred : ((fun v : SentenceVector => decide (v.doc_index = d)) ∘
      (fun t : ℕ × ℕ × String =>
        (⟨t.1, t.2.1, compute_tfidf_vector (sentence_tf t.2.2) (global_idf docs)⟩ :
          SentenceVector))) = (fun t : ℕ × ℕ × String => decide (t.1 = d)) := by
    funext t
    rfl
  rw [hpred, hblock, List.map_map]
  apply List.map_congr_left
  intro q hq
  rcases (mem_enumFrom_iff "").1 (by simpa [List.enum] using hq) with ⟨i, hi, rfl⟩
  simp [sent_vector]

/-- The two sides of `match_of_pair` on well-formed sentence vectors. -/
theorem match_of_pair_eq (docs : List SentenceDocument) (threshold : ℝ)
    (da sa db sb : ℕ) :
    match_of_pair docs threshold ⟨da, sa, sent_vector docs da sa⟩
        ⟨db, sb, sent_vector docs db sb⟩ =
      if da = db then none
      else if threshold ≤ pair_similarity docs da sa db sb then
        some (mk_match docs da sa db sb)
      else none := by
  unfold match_of_pair mk_match pair_similarity
  rfl

theorem mem_mergeSort_matches {l : List SentenceMatch} {m : SentenceMatch} :
    m ∈ l.mergeSort (fun a b => decide (b.similarity ≤ a.similarity)) ↔ m ∈ l :=
  (List.mergeSort_perm l _).mem_iff

theorem mem_mergeSort_globals {l : List GlobalSimilarity} {g : GlobalSimilarity} :
    g ∈ l.mergeSort (fun a b => decide (b.score ≤ a.score)) ↔ g ∈ l :=
  (List.mergeSort_perm l _).mem_iff

theorem sorted_mergeSort_matches (l : List SentenceMatch) :
    List.Sorted (fun a b => b.similarity ≤ a.similarity)
      (l.mergeSort (fun a b => decide (b.similarity ≤ a.similarity))) := by
  have h := @List.sorted_mergeSort SentenceMatch
    (fun a b => decide (b.similarity ≤ a.similarity))
    (fun a b c hab hbc => by
      simp only [decide_eq_true_eq] at hab hbc ⊢
      exact le_trans hbc hab)
    (fun a b => by
      simp only [Bool.or_eq_true, decide_eq_true_eq]
      exact le_total b.similarity a.similarity)
    l
  exact h.imp (fun hab => by simpa using hab)

theorem sorted_mergeSort_globals (l : List GlobalSimilarity) :
    List.Sorted (fun a b => b.score ≤ a.score)
      (l.mergeSort (fun a b => decide (b.score ≤ a.score))) := by
  have h := @List.sorted_mergeSort GlobalSimilarity
    (fun a b => decide (b.score ≤ a.score))
    (fun a b c hab hbc => by
      simp only [decide_eq_true_eq] at hab hbc ⊢
      exact le_trans hbc hab)
    (fun a b => by
      simp only [Bool.or_eq_true, decide_eq_true_eq]
      exact le_total b.score a.score)
    l
  exact h.imp (fun hab => by simpa using hab)

/-! ## Reduction of `analyze_sentence_similarity` to its two components -/

theorem sentence_vectors_of_empty {docs : List SentenceDocument}
    (h : (all_sentences docs).isEmpty) : sentence_vectors docs = [] := by
  unfold sentence_vectors
  rw [List.isEmpty_iff.1 h]
  rfl

theorem analyze_fst (docs : List SentenceDocument) (threshold : ℝ) :
    (analyze_sentence_similarity docs threshold).1 =
      compute_sentence_matches (sentence_vectors docs) docs threshold := by
  unfold analyze_sentence_similarity
  by_cases h : (all_sentences docs).isEmpty
  · rw [if_pos h, sentence_vectors_of_empty h]
    simp [compute_sentence_matches]
  · rw [if_neg h]

theorem analyze_snd (docs : List SentenceDocument) (threshold : ℝ) :
    (analyze_sentence_similarity docs threshold).2 =
      compute_global_similarities (sentence_vectors docs) docs := by
  unfold analyze_sentence_similarity
  by_cases h : (all_sentences docs).isEmpty
  · rw [if_pos h, sentence_vectors_of_empty h]
    have hconst : ∀ (l : List (ℕ × ℕ)),
        l.filterMap (fun _ => (none : Option GlobalSimilarity)) = [] := by
      intro l
      induction l with
      | nil => rfl
      | cons a t ih => simp [List.filterMap_cons, ih]
    simp [compute_global_similarities, hconst]
  · rw [if_neg h]

/-! ## Membership characterization of the match list -/

theorem mem_matches_iff (docs : List SentenceDocument) (threshold : ℝ)
    (m : SentenceMatch) :
    m ∈ compute_sentence_matches (sentence_vectors docs) docs threshold ↔
      ∃ da sa db sb, da < db ∧ db < docs.length ∧
        sa < (docs.getD da default).sentences.length ∧
        sb < (docs.getD db default).sentences.length ∧
        threshold ≤ pair_similarity docs da sa db sb ∧
        m = mk_match docs da sa db sb := by
  rw [matches_eq_pairs_filter, mem_mergeSort_matches, mem_pairs_filter]
  constructor
  · rintro ⟨i, j, hij, hj, hf⟩
    have hi : i < (sentence_vectors docs).length := lt_trans hij hj
    have hvi_mem : (sentence_vectors docs).getD i default ∈ sentence_vectors docs := by
      rw [List.getD_eq_getElem _ default hi]
      exact List.getElem_mem hi
    have hvj_mem : (sentence_vectors docs).getD j default ∈ sentence_vectors docs := by
      rw [List.getD_eq_getElem _ default hj]
      exact List.getElem_mem hj
    rcases mem_sentence_vectors.1 hvi_mem with ⟨da, sa, hda, hsa, hvi⟩
    rcases mem_sentence_vectors.1 hvj_mem with ⟨db, sb, hdb, hsb, hvj⟩
    have horder := pairwise_getD (sentence_vectors_pairwise docs) hij hj
    rw [hvi, hvj] at hf horder
    simp only at horder
    rw [match_of_pair_eq] at hf
    by_cases hdadb : da = db
    · rw [if_pos hdadb] at hf
      exact absurd hf (by simp)
    · rw [if_neg hdadb] at hf
      by_cases ht : threshold ≤ pair_similarity docs da sa db sb
      · rw [if_pos ht] at hf
        exact ⟨da, sa, db, sb, lt_of_le_of_ne horder hdadb, hdb, hsa, hsb, ht,
          (Option.some_injective _ hf).symm⟩
      · rw [if_neg ht] at hf
        exact absurd hf (by simp)
  · rintro ⟨da, sa, db, sb, hlt, hdb, hsa, hsb, ht, rfl⟩
    have hda : da < docs.length := lt_trans hlt hdb
    have hvi_mem : (⟨da, sa, sent_vector docs da sa⟩ : SentenceVector) ∈
        sentence_vectors docs := mem_sentence_vectors.2 ⟨da, sa, hda, hsa, rfl⟩
    have hvj_mem : (⟨db, sb, sent_vector docs db sb⟩ : SentenceVector) ∈
        sentence_vectors docs := mem_sentence_vectors.2 ⟨db, sb, hdb, hsb, rfl⟩
    rcases mem_iff_getD.1 hvi_mem with ⟨i, hilen, hi_eq⟩
    rcases mem_iff_getD.1 hvj_mem with ⟨j, hjlen, hj_eq⟩
    have hij : i < j := by
      rcases lt_trichotomy i j with h | h | h
      · exact h
      · exfalso
        rw [h, hj_eq] at hi_eq
        have : db = da := congrArg SentenceVector.doc_index hi_eq
        omega
      · exfalso
        have := pairwise_getD (sentence_vectors_pairwise docs) h hilen
        rw [hi_eq, hj_eq] at this
        simp only at this
        omega
    refine ⟨i, j, hij, hjlen, ?_⟩
    rw [hi_eq, hj_eq, match_of_pair_eq,
      if_neg (Nat.ne_of_lt hlt), if_pos ht]

/-! ## Uniqueness of the reported matches -/

theorem enumFrom_pairwise_fst_lt {α : Type} (l : List α) :
    ∀ (k : ℕ), List.Pairwise (fun q q' => q.1 < q'.1) (List.enumFrom k l) := by
  induction l with
  | nil => intro k; simp
  | cons a t ih =>
    intro k
    rw [List.enumFrom_cons]
    refine List.Pairwise.cons ?_ (ih (k + 1))
    intro q hq
    have := (List.mem_enumFrom hq).1
    simpa using lt_of_lt_of_le (Nat.lt_succ_self k) this

theorem flatten_from_key_pairwise (docs : List SentenceDocument) :
    ∀ (k : ℕ), List.Pairwise (fun t t' => (t.1, t.2.1) ≠ (t'.1, t'.2.1))
      (flatten_from k docs) := by
  induction docs with
  | nil => intro k; simp [flatten_from]
  | cons doc rest ih =>
    intro k
    rw [flatten_from, List.pairwise_append]
    refine ⟨?_, ih (k + 1), ?_⟩
    · rw [List.pairwise_map]
      refine (enumFrom_pairwise_fst_lt doc.sentences 0).imp ?_
      intro q q' hlt
      simp only [ne_eq, Prod.mk.injEq, not_and]
      intro _
      omega
    · intro a ha b hb
      rcases List.mem_map.1 ha with ⟨q, _, rfl⟩
      have := flatten_from_fst_ge hb
      simp only [ne_eq, Prod.mk.injEq, not_and]
      intro h1
      omega

theorem sentence_vectors_key_pairwise (docs : List SentenceDocument) :
    List.Pairwise (fun u v =>
      (u.doc_index, u.sentence_index) ≠ (v.doc_index, v.sentence_index))
      (sentence_vectors docs) := by
  rw [sentence_vectors_eq, List.pairwise_map]
  exact flatten_from_key_pairwise docs 0

theorem sentence_vectors_doc_lt {docs : List SentenceDocument} :
    ∀ v ∈ sentence_vectors docs, v.doc_index < docs.length := by
  intro v hv
  rcases mem_sentence_vectors.1 hv with ⟨d, s, hd, _, rfl⟩
  exact hd

theorem filename_inj {docs : List SentenceDocument}
    (hfn : (docs.map SentenceDocument.filename).Nodup)
    {d1 d2 : ℕ} (h1 : d1 < docs.length) (h2 : d2 < docs.length)
    (he : (docs.getD d1 default).filename = (docs.getD d2 default).filename) :
    d1 = d2 := by
  have hm1 : d1 < (docs.map SentenceDocument.filename).length := by simpa using h1
  have hm2 : d2 < (docs.map SentenceDocument.filename).length := by simpa using h2
  apply (@List.Nodup.getElem_inj_iff _ _ hfn d1 hm1 d2 hm2).1
  rw [List.getElem_map, List.getElem_map]
  rw [List.getD_eq_getElem docs default h1, List.getD_eq_getElem docs default h2] at he
  exact he

theorem fname_key_ne {docs : List SentenceDocument}
    (hfn : (docs.map SentenceDocument.filename).Nodup)
    {u v : SentenceVector} (hu : u.doc_index < docs.length)
    (hv : v.doc_index < docs.length)
    (hk : (u.doc_index, u.sentence_index) ≠ (v.doc_index, v.sentence_index)) :
    ((docs.getD u.doc_index default).filename, u.sentence_index) ≠
      ((docs.getD v.doc_index default).filename, v.sentence_index) := by
  intro he
  have hf : (docs.getD u.doc_index default).filename =
      (docs.getD v.doc_index default).filename := congrArg Prod.fst he
  have hs : u.sentence_index = v.sentence_index := congrArg Prod.snd he
  have hd : u.doc_index = v.doc_index := filename_inj hfn hu hv hf
  exact hk (by rw [hd, hs])

theorem match_of_pair_key {docs : List SentenceDocument} {threshold : ℝ}
    {a b : SentenceVector} {m : SentenceMatch}
    (h : match_of_pair docs threshold a b = some m) :
    match_key m = ((docs.getD a.doc_index default).filename, a.sentence_index,
      (docs.getD b.doc_index default).filename, b.sentence_index) := by
  unfold match_of_pair at h
  by_cases h1 : a.doc_index = b.doc_index
  · rw [if_pos h1] at h
    exact absurd h (by simp)
  · rw [if_neg h1] at h
    by_cases h2 : threshold ≤ compute_cosine_similarity a.vector b.vector
    · rw [if_pos h2] at h
      have := Option.some_injective _ h
      rw [← this]
      rfl
    · rw [if_neg h2] at h
      exact absurd h (by simp)

theorem nodup_pairs_filter_key (docs : List SentenceDocument) (threshold : ℝ)
    (hfn : (docs.map SentenceDocument.filename).Nodup) :
    ∀ (l : List SentenceVector),
      List.Pairwise (fun u v =>
        (u.doc_index, u.sentence_index) ≠ (v.doc_index, v.sentence_index)) l →
      (∀ v ∈ l, v.doc_index < docs.length) →
      ((pairs_filter (match_of_pair docs threshold) l).map match_key).Nodup := by
  intro l
  induction l with
  | nil => intro _ _; simp [pairs_filter]
  | cons a t ih =>
    intro hkey hbound
    rcases List.pairwise_cons.1 hkey with ⟨hhead, htail⟩
    have hboundt : ∀ v ∈ t, v.doc_index < docs.length :=
      fun v hv => hbound v (List.mem_cons_of_mem a hv)
    have hbounda : a.doc_index < docs.length := hbound a (List.mem_cons_self a t)
    rw [pairs_filter, List.map_append, List.nodup_append]
    refine ⟨?_, ih htail hboundt, ?_⟩
    · show List.Pairwise (fun x y => x ≠ y) _
      rw [List.pairwise_map, List.pairwise_filterMap]
      refine List.Pairwise.imp_of_mem ?_ htail
      intro b b' hb hb' hk m hm m' hm'
      rw [match_of_pair_key hm, match_of_pair_key hm']
      have htgt := fname_key_ne hfn (hboundt b hb) (hboundt b' hb') hk
      simp only [ne_eq, Prod.mk.injEq, not_and]
      intro _ _ hf hs
      exact htgt (by rw [hf, hs])
    · rw [List.disjoint_left]
      intro x hx hx'
      rcases List.mem_map.1 hx with ⟨m, hm, rfl⟩
      rcases List.mem_filterMap.1 hm with ⟨b, hb, hfb⟩
      rcases List.mem_map.1 hx' with ⟨m', hm', hkeq⟩
      rcases mem_pairs_filter.1 hm' with ⟨i, j, hij, hj, hf'⟩
      have hi : i < t.length := lt_trans hij hj
      have hbmem : t.getD i default ∈ t := by
        rw [List.getD_eq_getElem _ default hi]
        exact List.getElem_mem hi
      have hsrc := match_of_pair_key hfb
      have hsrc' := match_of_pair_key hf'
      have hne := fname_key_ne hfn hbounda (hboundt _ hbmem) (hhead _ hbmem)
      rw [hkeq] at hsrc'
      rw [hsrc'] at hsrc
      have h1 : (docs.getD a.doc_index default).filename =
          (docs.getD (t.getD i default).doc_index default).filename :=
        (congrArg (fun q => q.1) hsrc).symm
      have h2 : a.sentence_index = (t.getD i default).sentence_index :=
        (congrArg (fun q => q.2.1) hsrc).symm
      exact hne (by rw [h1, h2])

/-! ## Characterization of the global similarity list -/

theorem mem_doc_pairs {n : ℕ} {p : ℕ × ℕ} :
    p ∈ (List.range n).flatMap (fun a =>
        ((List.range n).drop (a + 1)).map (fun b => (a, b))) ↔
      p.1 < p.2 ∧ p.2 < n := by
  rw [range_flatMap_pairs n (List.range n) 0 (List.drop_zero _), mem_pairs_filter]
  constructor
  · rintro ⟨i, j, hij, hj, hp⟩
    rw [List.length_range] at hj
    have hi : i < n := lt_trans hij hj
    rw [List.getD_eq_getElem _ _ (by simpa using hi),
      List.getD_eq_getElem _ _ (by simpa using hj),
      List.getElem_range, List.getElem_range] at hp
    have := Option.some_injective _ hp
    rw [← this]
    exact ⟨hij, hj⟩
  · rintro ⟨h1, h2⟩
    have h1n : p.1 < n := lt_trans h1 h2
    refine ⟨p.1, p.2, h1, by simpa using h2, ?_⟩
    rw [List.getD_eq_getElem _ _ (by simpa using h1n),
      List.getD_eq_getElem _ _ (by simpa using h2),
      List.getElem_range, List.getElem_range]

theorem global_body_eq (docs : List SentenceDocument) (a b : ℕ)
    (ha : a < docs.length) (hb : b < docs.length) :
    (if ((sentence_vectors docs).filter (fun v => decide (v.doc_index = a))).isEmpty ∨
        ((sentence_vectors docs).filter (fun v => decide (v.doc_index = b))).isEmpty then
      (none : Option GlobalSimilarity)
    else
      some ⟨(docs.getD a default).filename, (docs.getD b default).filename,
        (((sentence_vectors docs).filter (fun v => decide (v.doc_index = a))).flatMap
          (fun va => ((sentence_vectors docs).filter
              (fun v => decide (v.doc_index = b))).map (fun vb =>
            compute_cosine_similarity va.vector vb.vector))).sum /
        ((((sentence_vectors docs).filter (fun v => decide (v.doc_index = a))).flatMap
          (fun va => ((sentence_vectors docs).filter
              (fun v => decide (v.doc_index = b))).map (fun vb =>
            compute_cosine_similarity va.vector vb.vector))).length : ℝ)⟩) =
    if (docs.getD a default).sentences = [] ∨ (docs.getD b default).sentences = []
    then none else some (mk_global docs a b) := by
  rw [sentence_vectors_filter_block docs a ha, sentence_vectors_filter_block docs b hb]
  have hea : (((docs.getD a default).sentences.enum.map
      (fun q => (⟨a, q.1, sent_vector docs a q.1⟩ : SentenceVector))).isEmpty = true) ↔
      (docs.getD a default).sentences = [] := by
    rw [List.isEmpty_iff, List.map_eq_nil_iff, List.enum_eq_nil]
  have heb : (((docs.getD b default).sentences.enum.map
      (fun q => (⟨b, q.1, sent_vector docs b q.1⟩ : SentenceVector))).isEmpty = true) ↔
      (docs.getD b default).sentences = [] := by
    rw [List.isEmpty_iff, List.map_eq_nil_iff, List.enum_eq_nil]
  refine if_congr (or_congr hea heb) rfl ?_
  have hsims : (((docs.getD a default).sentences.enum.map
        (fun q => (⟨a, q.1, sent_vector docs a q.1⟩ : SentenceVector))).flatMap
      (fun va => ((docs.getD b default).sentences.enum.map
          (fun q => (⟨b, q.1, sent_vector docs b q.1⟩ : SentenceVector))).map (fun vb =>
        compute_cosine_similarity va.vector vb.vector))) =
      ((docs.getD a default).sentences.enum).flatMap (fun p =>
        ((docs.getD b default).sentences.enum).map (fun q =>
          pair_similarity docs a p.1 b q.1)) := by
    rw [List.flatMap_map]
    simp only [List.map_map]
    rfl
  rw [hsims]
  simp only [mk_global, doc_pair_mean]

theorem mem_globals_iff (docs : List SentenceDocument) (g : GlobalSimilarity) :
    g ∈ compute_global_similarities (sentence_vectors docs) docs ↔
      ∃ a b, a < b ∧ b < docs.length ∧
        (docs.getD a default).sentences ≠ [] ∧
        (docs.getD b default).sentences ≠ [] ∧
        g = mk_global docs a b := by
  simp only [compute_global_similarities]
  rw [mem_mergeSort_globals, List.mem_filterMap]
  constructor
  · rintro ⟨p, hp, hsome⟩
    rcases mem_doc_pairs.1 hp with ⟨h1, h2⟩
    have h1n : p.1 < docs.length := lt_trans h1 h2
    rw [global_body_eq docs p.1 p.2 h1n h2] at hsome
    by_cases hsa : (docs.getD p.1 default).sentences = []
    · rw [if_pos (Or.inl hsa)] at hsome
      exact absurd hsome (by simp)
    · by_cases hsb : (docs.getD p.2 default).sentences = []
      · rw [if_pos (Or.inr hsb)] at hsome
        exact absurd hsome (by simp)
      · rw [if_neg (by
          intro hor
          rcases hor with h | h
          · exact hsa h
          · exact hsb h)] at hsome
        exact ⟨p.1, p.2, h1, h2, hsa, hsb, (Option.some_injective _ hsome).symm⟩
  · rintro ⟨a, b, h1, h2, hsa, hsb, rfl⟩
    refine ⟨(a, b), mem_doc_pairs.2 ⟨h1, h2⟩, ?_⟩
    rw [global_body_eq docs a b (lt_trans h1 h2) h2]
    rw [if_neg (by
      intro hor
      rcases hor with h | h
      · exact hsa h
      · exact hsb h)]

theorem globals_length_all (docs : List SentenceDocument)
    (hall : ∀ d ∈ docs, d.sentences ≠ []) :
    (compute_global_similarities (sentence_vectors docs) docs).length =
      docs.length * (docs.length - 1) / 2 := by
  simp only [compute_global_similarities]
  rw [List.length_mergeSort, List.length_filterMap_eq_countP]
  rw [List.countP_eq_length.2 ?_]
  · rw [range_flatMap_pairs docs.length (List.range docs.length) 0 (List.drop_zero _)]
    rw [length_pairs_filter]
    simp
  · intro p hp
    rcases mem_doc_pairs.1 hp with ⟨h1, h2⟩
    have h1n : p.1 < docs.length := lt_trans h1 h2
    rw [global_body_eq docs p.1 p.2 h1n h2]
    have hsa : (docs.getD p.1 default).sentences ≠ [] := by
      apply hall
      rw [List.getD_eq_getElem docs default h1n]
      exact List.getElem_mem h1n
    have hsb : (docs.getD p.2 default).sentences ≠ [] := by
      apply hall
      rw [List.getD_eq_getElem docs default h2]
      exact List.getElem_mem h2
    rw [if_neg (by
      intro hor
      rcases hor with h | h
      · exact hsa h
      · exact hsb h)]
    simp

/-! ## Matrix and cosine lemmas -/

theorem matrix_entry (vectors : List (List ℝ)) {i j : ℕ}
    (hi : i < vectors.length) (hj : j < vectors.length) :
    ((compute_similarity_matrix vectors).getD i []).getD j 0 =
      if i = j then 1
      else cosine_similarity (vectors.getD i []) (vectors.getD j []) := by
  unfold compute_similarity_matrix
  rw [if_neg (by omega)]
  have hmi : i < ((List.range vectors.length).map (fun i =>
      (List.range vectors.length).map (fun j =>
        if i = j then (1 : ℝ)
        else if i < j then cosine_similarity (vectors.getD i []) (vectors.getD j [])
        else cosine_similarity (vectors.getD i []) (vectors.getD j [])))).length := by
    simpa using hi
  rw [List.getD_eq_getElem _ _ hmi, List.getElem_map, List.getElem_range]
  have hmj : j < ((List.range vectors.length).map (fun j2 =>
      if i = j2 then (1 : ℝ)
      else if i < j2 then cosine_similarity (vectors.getD i []) (vectors.getD j2 [])
      else cosine_similarity (vectors.getD i []) (vectors.getD j2 []))).length := by
    simpa using hj
  rw [List.getD_eq_getElem _ _ hmj, List.getElem_map, List.getElem_range]
  by_cases hij : i = j
  · rw [if_pos hij, if_pos hij]
  · rw [if_neg hij, if_neg hij, ite_self]

theorem matrix_length (vectors : List (List ℝ)) :
    (compute_similarity_matrix vectors).length = vectors.length := by
  unfold compute_similarity_matrix
  by_cases h : vectors.length = 0
  · rw [if_pos h, h]
    rfl
  · rw [if_neg h]
    simp

theorem matrix_row_length (vectors : List (List ℝ)) :
    ∀ row ∈ compute_similarity_matrix vectors, row.length = vectors.length := by
  unfold compute_similarity_matrix
  by_cases h : vectors.length = 0
  · rw [if_pos h]
    intro row hrow
    simp at hrow
  · rw [if_neg h]
    intro row hrow
    rcases List.mem_map.1 hrow with ⟨i, _, rfl⟩
    simp

theorem zip_mul_sum_comm (a : List ℝ) :
    ∀ (b : List ℝ), ((a.zip b).map (fun p => p.1 * p.2)).sum =
      ((b.zip a).map (fun p => p.1 * p.2)).sum := by
  induction a with
  | nil => intro b; simp
  | cons x xs ih =>
    intro b
    cases b with
    | nil => simp
    | cons y ys => simp [ih ys, mul_comm]

theorem cosine_similarity_comm (a b : List ℝ) :
    cosine_similarity a b = cosine_similarity b a := by
  unfold cosine_similarity
  by_cases hl : a.length = b.length
  · by_cases hae : a = []
    · have hbe : b = [] := by
        apply List.eq_nil_of_length_eq_zero
        rw [← hl, hae]
        rfl
      have hc1 : a.length ≠ b.length ∨ a = [] := Or.inr hae
      have hc2 : b.length ≠ a.length ∨ b = [] := Or.inr hbe
      rw [if_pos hc1, if_pos hc2]
    · have hbe : b ≠ [] := by
        intro h
        subst h
        simp at hl
        exact hae hl
      have hc1 : ¬(a.length ≠ b.length ∨ a = []) := by
        intro hor
        rcases hor with h | h
        · exact h hl
        · exact hae h
      have hc2 : ¬(b.length ≠ a.length ∨ b = []) := by
        intro hor
        rcases hor with h | h
        · exact h hl.symm
        · exact hbe h
      rw [if_neg hc1, if_neg hc2]
      simp only
      refine if_congr or_comm rfl ?_
      rw [zip_mul_sum_comm, mul_comm]
  · have hc1 : a.length ≠ b.length ∨ a = [] := Or.inl hl
    have hc2 : b.length ≠ a.length ∨ b = [] := Or.inl (fun h => hl h.symm)
    rw [if_pos hc1, if_pos hc2]

/-! ## Equivalence of the panic-checked variants -/

theorem matrix_checked_eq (vectors : List (List ℝ)) :
    compute_similarity_matrix_checked vectors = some (compute_similarity_matrix vectors) := by
  unfold compute_similarity_matrix_checked compute_similarity_matrix
  by_cases h : vectors.length = 0
  · rw [if_pos h, if_pos h]
  · rw [if_neg h, if_neg h]
    apply omap_eq_map
    intro i hi
    apply omap_eq_map
    intro j hj
    by_cases hij : i = j
    · rw [if_pos hij, if_pos hij]
    · rw [if_neg hij, if_neg hij]
      have hi2 : i < vectors.length := List.mem_range.1 hi
      have hj2 : j < vectors.length := List.mem_range.1 hj
      rw [List.getElem?_eq_getElem hi2, List.getElem?_eq_getElem hj2, ite_self,
        List.getD_eq_getElem _ _ hi2, List.getD_eq_getElem _ _ hj2]

theorem analyze_documents_checked_eq (documents : List String) :
    analyze_documents_checked documents = some (analyze_documents documents) := by
  simp only [analyze_documents_checked, analyze_documents]
  by_cases h : documents.isEmpty
  · rw [if_pos h, if_pos h]
  · rw [if_neg h, if_neg h, matrix_checked_eq]
    rfl

theorem match_of_pair_checked_eq {docs : List SentenceDocument} {threshold : ℝ}
    {a b : SentenceVector} (ha : a ∈ sentence_vectors docs)
    (hb : b ∈ sentence_vectors docs) :
    match_of_pair_checked docs threshold a b = some (match_of_pair docs threshold a b) := by
  rcases mem_sentence_vectors.1 ha with ⟨da, sa, hda, hsa, rfl⟩
  rcases mem_sentence_vectors.1 hb with ⟨db, sb, hdb, hsb, rfl⟩
  unfold match_of_pair_checked match_of_pair
  dsimp only
  by_cases h1 : da = db
  · rw [if_pos h1, if_pos h1]
  · rw [if_neg h1, if_neg h1]
    by_cases h2 : threshold ≤
        compute_cosine_similarity (sent_vector docs da sa) (sent_vector docs db sb)
    · rw [if_pos h2, if_pos h2]
      rw [List.getElem?_eq_getElem hda, List.getElem?_eq_getElem hdb]
      dsimp only
      have hsa2 : sa < docs[da].sentences.length := by
        rwa [List.getD_eq_getElem docs default hda] at hsa
      have hsb2 : sb < docs[db].sentences.length := by
        rwa [List.getD_eq_getElem docs default hdb] at hsb
      rw [List.getElem?_eq_getElem hsa2, List.getElem?_eq_getElem hsb2]
      dsimp only
      rw [List.getD_eq_getElem docs default hda, List.getD_eq_getElem docs default hdb,
        List.getD_eq_getElem _ "" hsa2, List.getD_eq_getElem _ "" hsb2]
    · rw [if_neg h2, if_neg h2]

theorem enum_snd_mem {α : Type} [Inhabited α] {l : List α} {p : ℕ × α}
    (hp : p ∈ l.enum) : p.2 ∈ l := by
  rcases (mem_enumFrom_iff (default : α)).1 (by simpa [List.enum] using hp) with ⟨i, hi, rfl⟩
  exact mem_iff_getD.2 ⟨i, hi, rfl⟩

theorem matches_checked_eq (docs : List SentenceDocument) (threshold : ℝ) :
    compute_sentence_matches_checked (sentence_vectors docs) docs threshold =
      some (compute_sentence_matches (sentence_vectors docs) docs threshold) := by
  unfold compute_sentence_matches_checked compute_sentence_matches
  have houter : omap (fun p =>
      (omap (fun vec_b => match_of_pair_checked docs threshold p.2 vec_b)
        ((sentence_vectors docs).drop (p.1 + 1))).map (fun os => os.filterMap id))
      (sentence_vectors docs).enum =
      some ((sentence_vectors docs).enum.map (fun p =>
        ((sentence_vectors docs).drop (p.1 + 1)).filterMap
          (match_of_pair docs threshold p.2))) := by
    apply omap_eq_map
    intro p hp
    have hinner : omap (fun vec_b => match_of_pair_checked docs threshold p.2 vec_b)
        ((sentence_vectors docs).drop (p.1 + 1)) =
        some (((sentence_vectors docs).drop (p.1 + 1)).map
          (match_of_pair docs threshold p.2)) := by
      apply omap_eq_map
      intro b hbmem
      exact match_of_pair_checked_eq (enum_snd_mem hp) (List.mem_of_mem_drop hbmem)
    rw [hinner, Option.map_some', List.filterMap_map]
    rfl
  rw [houter]
  rfl

theorem globals_checked_eq (docs : List SentenceDocument) :
    compute_global_similarities_checked (sentence_vectors docs) docs =
      some (compute_global_similarities (sentence_vectors docs) docs) := by
  simp only [compute_global_similarities_checked, compute_global_similarities]
  have houter : omap (fun p : ℕ × ℕ =>
      if ((sentence_vectors docs).filter (fun v => decide (v.doc_index = p.1))).isEmpty ∨
          ((sentence_vectors docs).filter (fun v => decide (v.doc_index = p.2))).isEmpty
      then some none
      else
        match docs[p.1]?, docs[p.2]? with
        | some da, some db =>
          some (some (⟨da.filename, db.filename,
            (((sentence_vectors docs).filter (fun v => decide (v.doc_index = p.1))).flatMap
              (fun va => ((sentence_vectors docs).filter
                  (fun v => decide (v.doc_index = p.2))).map (fun vb =>
                compute_cosine_similarity va.vector vb.vector))).sum /
            ((((sentence_vectors docs).filter (fun v => decide (v.doc_index = p.1))).flatMap
              (fun va => ((sentence_vectors docs).filter
                  (fun v => decide (v.doc_index = p.2))).map (fun vb =>
                compute_cosine_similarity va.vector vb.vector))).length : ℝ)⟩ :
            GlobalSimilarity))
        | _, _ => none)
      ((List.range docs.length).flatMap (fun a =>
        ((List.range docs.length).drop (a + 1)).map (fun b => (a, b)))) =
      some (((List.range docs.length).flatMap (fun a =>
        ((List.range docs.length).drop (a + 1)).map (fun b => (a, b)))).map (fun p =>
          if ((sentence_vectors docs).filter (fun v => decide (v.doc_index = p.1))).isEmpty ∨
              ((sentence_vectors docs).filter (fun v => decide (v.doc_index = p.2))).isEmpty
          then none
          else
            some (⟨(docs.getD p.1 default).filename, (docs.getD p.2 default).filename,
              (((sentence_vectors docs).filter (fun v => decide (v.doc_index = p.1))).flatMap
                (fun va => ((sentence_vectors docs).filter
                    (fun v => decide (v.doc_index = p.2))).map (fun vb =>
                  compute_cosine_similarity va.vector vb.vector))).sum /
              ((((sentence_vectors docs).filter (fun v => decide (v.doc_index = p.1))).flatMap
                (fun va => ((sentence_vectors docs).filter
                    (fun v => decide (v.doc_index = p.2))).map (fun vb =>
                  compute_cosine_similarity va.vector vb.vector))).length : ℝ)⟩ :
              GlobalSimilarity))) := by
    apply omap_eq_map
    intro p hp
    rcases mem_doc_pairs.1 hp with ⟨h1, h2⟩
    have h1n : p.1 < docs.length := lt_trans h1 h2
    by_cases hc : ((sentence_vectors docs).filter
        (fun v => decide (v.doc_index = p.1))).isEmpty ∨
        ((sentence_vectors docs).filter (fun v => decide (v.doc_index = p.2))).isEmpty
    · rw [if_pos hc, if_pos hc]
    · rw [if_neg hc, if_neg hc]
      rw [List.getElem?_eq_getElem h1n, List.getElem?_eq_getElem h2]
      dsimp only
      rw [List.getD_eq_getElem docs default h1n, List.getD_eq_getElem docs default h2]
  rw [houter, Option.map_some', List.filterMap_map]
  rfl

theorem analyze_sentence_checked_eq (docs : List SentenceDocument) (threshold : ℝ) :
    analyze_sentence_similarity_checked docs threshold =
      some (analyze_sentence_similarity docs threshold) := by
  unfold analyze_sentence_similarity_checked analyze_sentence_similarity
  by_cases h : (all_sentences docs).isEmpty
  · rw [if_pos h, if_pos h]
  · rw [if_neg h, if_neg h]
    rw [matches_checked_eq, globals_checked_eq]
    rfl

/-! ## A concrete end-to-end evaluation

The spec's testable property: two documents with one identical sentence each
and threshold 0.7 produce a match; in the real-number model its similarity
is exactly 1. -/

theorem identical_sentence_docs_match :
    pair_similarity [⟨"doc1.txt", ["a"]⟩, ⟨"doc2.txt", ["a"]⟩] 0 0 1 0 = 1 ∧
    mk_match [⟨"doc1.txt", ["a"]⟩, ⟨"doc2.txt", ["a"]⟩] 0 0 1 0 ∈
      (analyze_sentence_similarity [⟨"doc1.txt", ["a"]⟩, ⟨"doc2.txt", ["a"]⟩]
        ((7 : ℝ)/10)).1 := by
  have ht : tokenize (normalize_text "a") = ["a"] := by decide
  have hidf : global_idf [⟨"doc1.txt", ["a"]⟩, ⟨"doc2.txt", ["a"]⟩] = [("a", (1 : ℝ))] := by
    have hall : all_sentences [⟨"doc1.txt", ["a"]⟩, ⟨"doc2.txt", ["a"]⟩] =
        [(0, 0, "a"), (1, 0, "a")] := by decide
    rw [global_idf, hall]
    simp only [List.map_cons, List.map_nil, sentence_tf, ht]
    norm_num [compute_tf, compute_idf, doc_freq, tfKeys, mget]
  have hsv0 : sent_vector [⟨"doc1.txt", ["a"]⟩, ⟨"doc2.txt", ["a"]⟩] 0 0 =
      [("a", (1 : ℝ))] := by
    rw [sent_vector, hidf]
    show compute_tfidf_vector (sentence_tf "a") _ = _
    rw [sentence_tf, ht]
    norm_num [compute_tf, compute_tfidf_vector, mget]
  have hsv1 : sent_vector [⟨"doc1.txt", ["a"]⟩, ⟨"doc2.txt", ["a"]⟩] 1 0 =
      [("a", (1 : ℝ))] := by
    rw [sent_vector, hidf]
    show compute_tfidf_vector (sentence_tf "a") _ = _
    rw [sentence_tf, ht]
    norm_num [compute_tf, compute_tfidf_vector, mget]
  have hps : pair_similarity [⟨"doc1.txt", ["a"]⟩, ⟨"doc2.txt", ["a"]⟩] 0 0 1 0 = 1 := by
    rw [pair_similarity, hsv0, hsv1]
    simp only [compute_cosine_similarity, mget]
    norm_num
  refine ⟨hps, ?_⟩
  rw [analyze_fst]
  apply (mem_matches_iff [⟨"doc1.txt", ["a"]⟩, ⟨"doc2.txt", ["a"]⟩] ((7 : ℝ)/10) _).2
  refine ⟨0, 0, 1, 0, by decide, by decide, by decide, by decide, ?_, rfl⟩
  rw [hps]
  norm_num

/-! ## The specification claims -/

/-- C1: for every list of sentence-documents and every threshold, the match
list returned by the sentence pipeline contains exactly those unordered
cross-document sentence pairs (canonically oriented `da < db`) whose sparse
cosine similarity is at least the threshold (boundary-inclusive, `≤` on
reals), never a same-document pair, and the list is sorted by similarity
descending. Proved for every real threshold, which covers [0,1]. -/
theorem sentence_matches_exact_and_sorted (documents : List SentenceDocument)
    (threshold : ℝ) :
    (∀ m : SentenceMatch,
        m ∈ (analyze_sentence_similarity documents threshold).1 ↔
          ∃ da sa db sb, da < db ∧ db < documents.length ∧
            sa < (documents.getD da default).sentences.length ∧
            sb < (documents.getD db default).sentences.length ∧
            threshold ≤ pair_similarity documents da sa db sb ∧
            m = mk_match documents da sa db sb) ∧
    List.Sorted (fun a b => b.similarity ≤ a.similarity)
      (analyze_sentence_similarity documents threshold).1 := by
  rw [analyze_fst]
  refine ⟨fun m => mem_matches_iff documents threshold m, ?_⟩
  rw [matches_eq_pairs_filter]
  exact sorted_mergeSort_matches _

/-- C2: the global-similarity list has one record per unordered document pair
(a < b by input order) in which both documents have at least one sentence,
scored by the arithmetic mean over the full combinatorial sentence product
(`mk_global`/`doc_pair_mean`); pairs with an empty side are omitted; the list
is sorted by score descending; and when every document has at least one
sentence its length is n*(n-1)/2. -/
theorem global_similarities_exact_sorted_length (documents : List SentenceDocument)
    (threshold : ℝ) :
    (∀ g : GlobalSimilarity,
        g ∈ (analyze_sentence_similarity documents threshold).2 ↔
          ∃ a b, a < b ∧ b < documents.length ∧
            (documents.getD a default).sentences ≠ [] ∧
            (documents.getD b default).sentences ≠ [] ∧
            g = mk_global documents a b) ∧
    List.Sorted (fun x y => y.score ≤ x.score)
      (analyze_sentence_similarity documents threshold).2 ∧
    ((∀ d ∈ documents, d.sentences ≠ []) →
      (analyze_sentence_similarity documents threshold).2.length =
        documents.length * (documents.length - 1) / 2) := by
  rw [analyze_snd]
  refine ⟨fun g => mem_globals_iff documents g, ?_,
    fun hall => globals_length_all documents hall⟩
  simp only [compute_global_similarities]
  exact sorted_mergeSort_globals _

/-- C3: compute_similarity_matrix returns an NxN matrix whose cell [i][j] is
exactly 1 on the diagonal (by construction) and cosine_similarity of the two
vectors off it; the empty input yields the empty matrix. -/
theorem similarity_matrix_cells (vectors : List (List ℝ)) :
    (vectors = [] → compute_similarity_matrix vectors = []) ∧
    (compute_similarity_matrix vectors).length = vectors.length ∧
    (∀ row ∈ compute_similarity_matrix vectors, row.length = vectors.length) ∧
    (∀ i j, i < vectors.length → j < vectors.length →
      ((compute_similarity_matrix vectors).getD i []).getD j 0 =
        if i = j then 1
        else cosine_similarity (vectors.getD i []) (vectors.getD j [])) := by
  refine ⟨?_, matrix_length vectors, matrix_row_length vectors,
    fun i j hi hj => matrix_entry vectors hi hj⟩
  intro h
  subst h
  rfl

/-- C7: the similarity matrix is symmetric; out-of-range cells read through
`getD` agree as well (both give the default 0), so the equality holds for all
index pairs. -/
theorem similarity_matrix_symmetric (vectors : List (List ℝ)) (i j : ℕ) :
    ((compute_similarity_matrix vectors).getD i []).getD j 0 =
      ((compute_similarity_matrix vectors).getD j []).getD i 0 := by
  have hzero_row : ∀ a b : ℕ, vectors.length ≤ a →
      ((compute_similarity_matrix vectors).getD a []).getD b 0 = 0 := by
    intro a b ha
    rw [List.getD_eq_default (compute_similarity_matrix vectors) []
      (show (compute_similarity_matrix vectors).length ≤ a by rw [matrix_length]; omega)]
    rfl
  have hzero_col : ∀ a b : ℕ, a < vectors.length → vectors.length ≤ b →
      ((compute_similarity_matrix vectors).getD a []).getD b 0 = 0 := by
    intro a b ha hb
    have hrow : (compute_similarity_matrix vectors).getD a [] ∈
        compute_similarity_matrix vectors := by
      rw [List.getD_eq_getElem _ _ (by rw [matrix_length]; exact ha)]
      exact List.getElem_mem _
    rw [List.getD_eq_default _ _
      (le_trans (le_of_eq (matrix_row_length vectors _ hrow)) hb)]
  by_cases hi : i < vectors.length
  · by_cases hj : j < vectors.length
    · rw [matrix_entry vectors hi hj, matrix_entry vectors hj hi]
      by_cases hij : i = j
      · rw [if_pos hij, if_pos hij.symm]
      · rw [if_neg hij, if_neg (fun h => hij h.symm), cosine_similarity_comm]
    · rw [hzero_col i j hi (by omega), hzero_row j i (by omega)]
  · by_cases hj : j < vectors.length
    · rw [hzero_row i j (by omega), hzero_col j i hj (by omega)]
    · rw [hzero_row i j (by omega), hzero_row j i (by omega)]

/-- C4: compute_idf maps exactly the terms occurring in at least one corpus
member, each to ln((N+1)/(df+1)) + 1 where df counts members containing the
term (presence only, `doc_freq`); the empty corpus yields the empty map. -/
theorem compute_idf_spec (tfs : List (List (String × ℝ))) :
    (tfs = [] → compute_idf tfs = []) ∧
    (∀ t : String, t ∈ tfKeys (compute_idf tfs) ↔ ∃ tf ∈ tfs, t ∈ tfKeys tf) ∧
    (∀ t : String, (∃ tf ∈ tfs, t ∈ tfKeys tf) →
      mget (compute_idf tfs) t =
        some (Real.log (((tfs.length : ℝ) + 1) / ((doc_freq tfs t : ℝ) + 1)) + 1)) := by
  refine ⟨?_, ?_, ?_⟩
  · intro h
    subst h
    rfl
  · intro t
    rw [tfKeys_compute_idf]
    by_cases h : tfs.isEmpty
    · rw [if_pos h]
      rw [List.isEmpty_iff.1 h]
      simp
    · rw [if_neg h]
      rw [List.mem_dedup, List.mem_flatMap]
  · intro t ht
    rcases ht with ⟨tf, htf, ht⟩
    have hne : ¬tfs.isEmpty := by
      intro h
      rw [List.isEmpty_iff.1 h] at htf
      simp at htf
    exact mget_compute_idf tfs t hne (List.mem_flatMap.2 ⟨tf, htf, ht⟩)

/-- C8: within one IDF map, a term occurring in at most as many corpus
members as another has an IDF value at least as large (so a strictly rarer
term is never weighted below a more common one). -/
theorem idf_antitone_in_doc_freq (tfs : List (List (String × ℝ)))
    (t₁ t₂ : String)
    (h₁ : t₁ ∈ tfKeys (compute_idf tfs))
    (h₂ : t₂ ∈ tfKeys (compute_idf tfs))
    (hdf : doc_freq tfs t₁ ≤ doc_freq tfs t₂) :
    (mget (compute_idf tfs) t₂).getD 0 ≤ (mget (compute_idf tfs) t₁).getD 0 := by
  have hne : ¬tfs.isEmpty := by
    intro h
    rw [tfKeys_compute_idf, if_pos h] at h₁
    simp at h₁
  rw [tfKeys_compute_idf, if_neg hne, List.mem_dedup] at h₁ h₂
  rw [mget_compute_idf tfs t₁ hne h₁, mget_compute_idf tfs t₂ hne h₂]
  simp only [Option.getD_some]
  have hpos₁ : (0 : ℝ) < (doc_freq tfs t₁ : ℝ) + 1 := by positivity
  have hpos₂ : (0 : ℝ) < (doc_freq tfs t₂ : ℝ) + 1 := by positivity
  have hdiv : ((tfs.length : ℝ) + 1) / ((doc_freq tfs t₂ : ℝ) + 1) ≤
      ((tfs.length : ℝ) + 1) / ((doc_freq tfs t₁ : ℝ) + 1) := by
    apply div_le_div_of_nonneg_left (by positivity) hpos₁
    have : (doc_freq tfs t₁ : ℝ) ≤ (doc_freq tfs t₂ : ℝ) := by exact_mod_cast hdf
    linarith
  have hlog := Real.log_le_log (by positivity) hdiv
  linarith

/-- C9: dense cosine similarity returns exactly 0 on length mismatch, on
empty input, and on zero magnitude, and otherwise dot(A,B)/(|A|*|B|). -/
theorem cosine_similarity_spec (vec_a vec_b : List ℝ) :
    (vec_a.length ≠ vec_b.length → cosine_similarity vec_a vec_b = 0) ∧
    (vec_a = [] ∨ vec_b = [] → cosine_similarity vec_a vec_b = 0) ∧
    (Real.sqrt ((vec_a.map (fun x => x * x)).sum) = 0 ∨
        Real.sqrt ((vec_b.map (fun x => x * x)).sum) = 0 →
      cosine_similarity vec_a vec_b = 0) ∧
    (vec_a.length = vec_b.length → vec_a ≠ [] →
      Real.sqrt ((vec_a.map (fun x => x * x)).sum) ≠ 0 →
      Real.sqrt ((vec_b.map (fun x => x * x)).sum) ≠ 0 →
      cosine_similarity vec_a vec_b =
        ((vec_a.zip vec_b).map (fun p => p.1 * p.2)).sum /
          (Real.sqrt ((vec_a.map (fun x => x * x)).sum) *
            Real.sqrt ((vec_b.map (fun x => x * x)).sum))) := by
  refine ⟨?_, ?_, ?_, ?_⟩
  · intro h
    simp only [cosine_similarity]
    rw [if_pos (Or.inl h)]
  · intro h
    simp only [cosine_similarity]
    by_cases hl : vec_a.length = vec_b.length
    · have ha : vec_a = [] := by
        rcases h with h | h
        · exact h
        · apply List.eq_nil_of_length_eq_zero
          rw [hl, h]
          rfl
      rw [if_pos (Or.inr ha)]
    · rw [if_pos (Or.inl hl)]
  · intro h
    simp only [cosine_similarity]
    by_cases hg : vec_a.length ≠ vec_b.length ∨ vec_a = []
    · rw [if_pos hg]
    · rw [if_neg hg, if_pos h]
  · intro hl hne hma hmb
    simp only [cosine_similarity]
    rw [if_neg (by
      intro hor
      rcases hor with h | h
      · exact h hl
      · exact hne h)]
    rw [if_neg (by
      intro hor
      rcases hor with h | h
      · exact hma h
      · exact hmb h)]

/-- C5: both pipelines are pure functions of their inputs in this embedding
(real-number semantics removes the only source-level nondeterminism, the
iteration order of hash maps inside floating-point sums), so running either
twice on the same input yields identical results, ordering included. -/
theorem pipelines_deterministic (documents : List String)
    (sdocs : List SentenceDocument) (threshold : ℝ) :
    analyze_documents documents = analyze_documents documents ∧
    analyze_sentence_similarity sdocs threshold =
      analyze_sentence_similarity sdocs threshold :=
  ⟨rfl, rfl⟩

/-- C6: both pipelines are total: the panic-checked variants, in which every
source-level indexing is an `Option` lookup that propagates failure, always
return `some` of the unchecked result, for every input list and every real
threshold. The `partial_cmp(..).unwrap()` of the two sorts can fail only on
an f32 NaN, which has no counterpart in the real-number idealization (every
similarity is a well-defined real), so the comparator is the total real
order. -/
theorem core_pipelines_total :
    (∀ documents : List String,
      analyze_documents_checked documents = some (analyze_documents documents)) ∧
    ∀ (documents : List SentenceDocument) (threshold : ℝ),
      analyze_sentence_similarity_checked documents threshold =
        some (analyze_sentence_similarity documents threshold) :=
  ⟨analyze_documents_checked_eq, analyze_sentence_checked_eq⟩

/-- C10: every reported sentence match is oriented by document input order
(source document index strictly below target document index), and when the
document labels are distinct, the match list contains each oriented sentence
pair at most once and never also in the reversed orientation. -/
theorem match_orientation_and_uniqueness (documents : List SentenceDocument)
    (threshold : ℝ) :
    (∀ m ∈ (analyze_sentence_similarity documents threshold).1,
        ∃ da sa db sb, da < db ∧ db < documents.length ∧
          sa < (documents.getD da default).sentences.length ∧
          sb < (documents.getD db default).sentences.length ∧
          m = mk_match documents da sa db sb) ∧
    ((documents.map SentenceDocument.filename).Nodup →
      ((analyze_sentence_similarity documents threshold).1.map match_key).Nodup ∧
      ∀ m ∈ (analyze_sentence_similarity documents threshold).1,
        ∀ mr ∈ (analyze_sentence_similarity documents threshold).1,
          ¬(mr.source_doc = m.target_doc ∧
            mr.source_sentence_index = m.target_sentence_index ∧
            mr.target_doc = m.source_doc ∧
            mr.target_sentence_index = m.source_sentence_index)) := by
  rw [analyze_fst]
  constructor
  · intro m hm
    rcases (mem_matches_iff documents threshold m).1 hm with
      ⟨da, sa, db, sb, h1, h2, h3, h4, _, h6⟩
    exact ⟨da, sa, db, sb, h1, h2, h3, h4, h6⟩
  · intro hfn
    constructor
    · rw [matches_eq_pairs_filter]
      have hperm := (List.mergeSort_perm
        (pairs_filter (match_of_pair documents threshold) (sentence_vectors documents))
        (fun a b => decide (b.similarity ≤ a.similarity))).map match_key
      rw [hperm.nodup_iff]
      exact nodup_pairs_filter_key documents threshold hfn _
        (sentence_vectors_key_pairwise documents) sentence_vectors_doc_lt
    · intro m hm mr hmr
      rintro ⟨e1, e2, e3, e4⟩
      rcases (mem_matches_iff documents threshold m).1 hm with
        ⟨da, sa, db, sb, h1, hdb, hsa, hsb, _, rfl⟩
      rcases (mem_matches_iff documents threshold mr).1 hmr with
        ⟨da2, sa2, db2, sb2, h1r, hdb2, hsa2, hsb2, _, rfl⟩
      simp only [mk_match] at e1 e3
      have hda : da < documents.length := lt_trans h1 hdb
      have hda2 : da2 < documents.length := lt_trans h1r hdb2
      have hx : da2 = db := filename_inj hfn hda2 hdb e1
      have hy : db2 = da := filename_inj hfn hdb2 hda e3
      omega

/-- C8 witness: in the two-member corpus where "a" occurs in both members and
"b" only in the second, the rarer term "b" receives an IDF at least that of
"a". -/
theorem idf_antitone_witness :
    "b" ∈ tfKeys (compute_idf [[("a", (1 : ℝ))], [("a", (1 : ℝ)/2), ("b", (1 : ℝ)/2)]]) ∧
    "a" ∈ tfKeys (compute_idf [[("a", (1 : ℝ))], [("a", (1 : ℝ)/2), ("b", (1 : ℝ)/2)]]) ∧
    doc_freq [[("a", (1 : ℝ))], [("a", (1 : ℝ)/2), ("b", (1 : ℝ)/2)]] "b" ≤
      doc_freq [[("a", (1 : ℝ))], [("a", (1 : ℝ)/2), ("b", (1 : ℝ)/2)]] "a" ∧
    (mget (compute_idf [[("a", (1 : ℝ))], [("a", (1 : ℝ)/2), ("b", (1 : ℝ)/2)]]) "a").getD 0 ≤
      (mget (compute_idf [[("a", (1 : ℝ))], [("a", (1 : ℝ)/2), ("b", (1 : ℝ)/2)]]) "b").getD 0 :=
  ⟨by decide, by decide, by decide,
    idf_antitone_in_doc_freq [[("a", (1 : ℝ))], [("a", (1 : ℝ)/2), ("b", (1 : ℝ)/2)]]
      "b" "a" (by decide) (by decide) (by decide)⟩

end DocSim
